import Mathlib

set_option linter.unusedVariables false

/-!
Shallow embedding of the enrichment pipeline of `src/etl.py`
(repository Anandreddy0987/movie_etl_project).

The embedded core is `enrich_movies` (lines 134-194 of `src/etl.py`)
together with `query_omdb` (lines 119-132).  Pure Python values are
modelled directly; the SQLite tables and the JSON cache file are
modelled as ordered association lists (Python dicts keep insertion
order, and `INSERT OR REPLACE` keyed on the primary key is an
association-map update).  The HTTP layer (`requests.get`, the status
check and JSON decoding inside `query_omdb`) is an oracle function in
the configuration returning `Except`: `Except.error` models a raised
exception or non-200 status.  Observable side effects (the external
call, `time.sleep(0.1)`, `save_cache`, `log`, the enriched upsert) are
recorded as an explicit event trace.
-/

/-- Association-list lookup; models Python dict indexing `d[k]`,
`d.get(k)` and the membership test `k in d`. -/
def getA {α β : Type} [DecidableEq α] : List (α × β) → α → Option β
  | [], _ => none
  | (k, v) :: t, k' => if k = k' then some v else getA t k'

/-- Association-list update; models Python dict assignment `d[k] = v`:
the value is replaced in place when the key is present and appended
otherwise, matching insertion-order semantics of Python dicts. -/
def setA {α β : Type} [DecidableEq α] : List (α × β) → α → β → List (α × β)
  | [], k, v => [(k, v)]
  | (k', v') :: t, k, v => if k' = k then (k, v) :: t else (k', v') :: setA t k v

/-- A JSON object payload as returned by OMDb.  Every field the code
reads (`Response`, `Director`, `Plot`, `BoxOffice`, `imdbRating`,
`imdbID`) is a string in the OMDb response, so fields are modelled as
string-valued. -/
abbrev Payload := List (String × String)

/-- The cache mapping: key to payload-or-null (`None` in the JSON file
is `none` here), as produced by `load_cache` / consumed by
`save_cache`. -/
abbrev Cache := List (String × Option Payload)

/-- One row of the `movies` table as fetched by
`SELECT movieId, title, year, genres FROM movies` (line 137). -/
structure Row where
  movieId : Int
  title : String
  year : Option Int
  genres : Option String
deriving DecidableEq

/-- Python `str` of the optional year as interpolated by the f-string
`f"{title}|{year}"`: `None` prints as the string `None`, an int prints
its decimal form. -/
def pyStrOptInt : Option Int → String
  | none => "None"
  | some n => toString n

/-- The cache key `key = f"{title}|{year}"` (line 143). -/
def makeKey (title : String) (year : Option Int) : String :=
  title ++ "|" ++ pyStrOptInt year

/-- Python truthiness of the `api_key` argument (`if not api_key`,
line 152): `None` and the empty string are falsy. -/
def hasKey : Option String → Bool
  | none => false
  | some s => !s.isEmpty

/-- The log text of line 153. -/
def skipMsg (key : String) : String :=
  "No API key provided and no mock entry for " ++ key ++ " -> skipping"

/-- The log text of line 158. -/
def failMsg (title : String) (year : Option Int) (e : String) : String :=
  "OMDb request failed for " ++ title ++ " (" ++ pyStrOptInt year ++ "): " ++ e

/-- Decimal digits to a natural number (most significant first). -/
def digitsToNat (l : List Char) : Nat :=
  l.foldl (fun a c => a * 10 + (c.toNat - 48)) 0

/-- Split at the first dot: characters before it, and the characters
after it when a dot occurs. -/
def splitOnDot : List Char → List Char × Option (List Char)
  | [] => ([], none)
  | c :: t =>
    if c = '.' then ([], some t)
    else
      let p := splitOnDot t
      (c :: p.1, p.2)

/-- Split at the first exponent marker `e` or `E`. -/
def splitOnExp : List Char → List Char × Option (List Char)
  | [] => ([], none)
  | c :: t =>
    if c = 'e' ∨ c = 'E' then ([], some t)
    else
      let p := splitOnExp t
      (c :: p.1, p.2)

/-- Strip leading and trailing whitespace at character level; models
the whitespace stripping Python `float` performs on its argument. -/
def trimChars (cs : List Char) : List Char :=
  ((cs.dropWhile Char.isWhitespace).reverse.dropWhile Char.isWhitespace).reverse

/-- Consume an optional leading sign; returns whether the value is
negated and the remaining characters. -/
def parseSign : List Char → Bool × List Char
  | '+' :: t => (false, t)
  | '-' :: t => (true, t)
  | t => (false, t)

/-- Parse the mantissa of a decimal literal: `digits`, `digits.digits`,
`.digits` or `digits.` (Python accepts all four). -/
def parseMantissa (cs : List Char) : Option ℚ :=
  let p := splitOnDot cs
  match p.2 with
  | none =>
    if cs ≠ [] ∧ cs.all Char.isDigit then some (digitsToNat cs : ℚ) else none
  | some fp =>
    if fp.contains '.' then none
    else if p.1 = [] ∧ fp = [] then none
    else if p.1.all Char.isDigit ∧ fp.all Char.isDigit then
      some ((digitsToNat p.1 : ℚ) + (digitsToNat fp : ℚ) / ((10 : ℚ) ^ fp.length))
    else none

/-- Models Python `float(s)` on a string, with exact rational values in
place of binary floating point: optional surrounding whitespace, an
optional sign, a decimal mantissa and an optional decimal exponent.
Returns `none` when `float` would raise `ValueError` (the special forms
`inf`, `nan` and underscore separators are outside the modelled
domain). -/
def parseFloat (s : String) : Option ℚ :=
  let cs := trimChars s.toList
  let sg := parseSign cs
  let me := splitOnExp sg.2
  let m? := parseMantissa me.1
  let e? : Option Int :=
    match me.2 with
    | none => some 0
    | some ec =>
      let se := parseSign ec
      if se.2 ≠ [] ∧ se.2.all Char.isDigit then
        some (if se.1 then -(digitsToNat se.2 : Int) else (digitsToNat se.2 : Int))
      else none
  match m?, e? with
  | some m, some e => some ((if sg.1 then -m else m) * (10 : ℚ) ^ e)
  | _, _ => none

/-- One row of the `movies_enriched` table, as written by the
`INSERT OR REPLACE` of lines 176-190 (keyed by `movieId`, which is the
association-map key and therefore not repeated here).  `other_fields`
holds the dict serialized by `json.dumps(other)`. -/
structure EnrichedRow where
  title : String
  year : Option Int
  genres : Option String
  director : Option String
  plot : Option String
  box_office : Option String
  imdb_rating : Option ℚ
  imdb_id : Option String
  other_fields : List (String × String)
deriving DecidableEq

/-- The enriched table keyed by `movieId`. -/
abbrev Store := List (Int × EnrichedRow)

/-- The key tuple of line 175: fields excluded from `other`. -/
def excludedKeys : List String :=
  ["Title", "Year", "Director", "Plot", "BoxOffice", "imdbRating", "imdbID", "Genre"]

/-- Modelled from the spec: the five fields the specification names as
"extracted" in §4.4 (director, plot, commercial gross, external rating,
external identifier); used only to compare the specification text with
the exclusion tuple the code actually uses on line 175. -/
def specExtractedFields : List String :=
  ["Director", "Plot", "BoxOffice", "imdbRating", "imdbID"]

/-- Lines 169-173: `float(data.get("imdbRating")) if data.get("imdbRating")
and data.get("imdbRating") != "N/A" else None`, with the enclosing
`try`/`except` collapsing a parse failure to `None`.  An absent field or
an empty string is falsy in Python. -/
def parseImdbRating (p : Payload) : Option ℚ :=
  match getA p "imdbRating" with
  | none => none
  | some s => if s ≠ "" ∧ s ≠ "N/A" then parseFloat s else none

/-- Line 165, second conjunct: `data.get("Response","True") != "False"`. -/
def respNotFalse (p : Payload) : Bool :=
  ((getA p "Response").getD "True") != "False"

/-- Lines 166-175: the values bound for the enriched insert. -/
def normalizeRow (row : Row) (p : Payload) : EnrichedRow :=
  { title := row.title
    year := row.year
    genres := row.genres
    director := getA p "Director"
    plot := getA p "Plot"
    box_office := getA p "BoxOffice"
    imdb_rating := parseImdbRating p
    imdb_id := getA p "imdbID"
    other_fields := p.filter (fun kv => !(excludedKeys.contains kv.1)) }

/-- Line 165: `if data and data.get("Response","True") != "False"`, and
what is inserted when the guard holds.  `data` is truthy exactly when it
is a non-empty dict (an empty dict and `None` are both falsy). -/
def writeFor (row : Row) (data : Option Payload) : Option (Int × EnrichedRow) :=
  match data with
  | none => none
  | some p =>
    if !p.isEmpty && respNotFalse p then some (row.movieId, normalizeRow row p)
    else none

/-- Observable effects of the loop body, in program order. -/
inductive Event where
  /-- `query_omdb(title, year, api_key)` was invoked (line 156). -/
  | call (title : String) (year : Option Int)
  /-- `time.sleep(0.1)` ran (line 164). -/
  | sleep
  /-- `save_cache(cache)` ran (line 163 or line 193). -/
  | saveCache
  /-- `log(msg)` ran. -/
  | logged (msg : String)
  /-- The `INSERT OR REPLACE INTO movies_enriched` of lines 176-191. -/
  | upsert (movieId : Int) (row : EnrichedRow)
deriving DecidableEq

/-- Run configuration of `enrich_movies(conn, api_key, mock_cache)`
plus the ambient network.  `net` models the HTTP layer used by
`query_omdb`: `requests.get` followed by the status check and
`r.json()`; a raised `requests` exception or a non-200 status is
`Except.error` with the exception text. -/
structure Cfg where
  net : String → Option Int → Except String Payload
  apiKey : Option String
  mockCache : Option Cache

/-- `query_omdb(title, year, api_key)` (lines 119-132): builds the
query against the fixed endpoint and performs the request through the
ambient HTTP layer; the parameter construction and status check live
inside `cfg.net`, whose argument is the same (title, year) pair. -/
def query_omdb (cfg : Cfg) (title : String) (year : Option Int) : Except String Payload :=
  cfg.net title year

/-- The mutable state of one `enrich_movies` run: the working cache
dict, the `movies_enriched` table, and the three counters. -/
structure DB where
  cache : Cache
  store : Store
  processed : Nat
  hits : Nat
  misses : Nat
deriving DecidableEq

/-- The upsert event (if any) produced by a write decision. -/
def evOfWrite : Option (Int × EnrichedRow) → List Event
  | some ie => [Event.upsert ie.1 ie.2]
  | none => []

/-- The write pair (if any) as a list. -/
def wlOfWrite : Option (Int × EnrichedRow) → List (Int × EnrichedRow)
  | some ie => [ie]
  | none => []

/-- Lines 165-192: the normalize-and-persist tail of the loop body,
shared by the hit and miss paths.  `ev` carries the events already
emitted earlier in the body. -/
def finishRow (db : DB) (row : Row) (data : Option Payload) (ev : List Event) :
    DB × List Event :=
  match writeFor row data with
  | some ie =>
    ({ db with store := setA db.store ie.1 ie.2, processed := db.processed + 1 },
      ev ++ [Event.upsert ie.1 ie.2])
  | none => (db, ev)

/-- Lines 160-164: the common tail of every resolved cache miss:
`cache[key] = data`, `misses += 1`, `save_cache(cache)`,
`time.sleep(0.1)`, then the persist step. -/
def missTail (db : DB) (row : Row) (key : String) (data : Option Payload)
    (ev : List Event) : DB × List Event :=
  finishRow
    { db with cache := setA db.cache key data, misses := db.misses + 1 }
    row data (ev ++ [Event.saveCache, Event.sleep])

/-- One iteration of the `for movieId, title, year, genres in rows`
loop (lines 142-192). -/
def stepRow (cfg : Cfg) (db : DB) (row : Row) : DB × List Event :=
  let key := makeKey row.title row.year
  match getA db.cache key with
  | some data => finishRow { db with hits := db.hits + 1 } row data []
  | none =>
    match cfg.mockCache with
    | some mc => missTail db row key ((getA mc key).getD none) []
    | none =>
      if hasKey cfg.apiKey = false then
        (db, [Event.logged (skipMsg key)])
      else
        match query_omdb cfg row.title row.year with
        | Except.ok p => missTail db row key (some p) [Event.call row.title row.year]
        | Except.error e =>
          missTail db row key none
            [Event.call row.title row.year, Event.logged (failMsg row.title row.year e)]

/-- The whole loop, returning the final state and, for each row in
order, the events its iteration emitted. -/
def runRows (cfg : Cfg) : DB → List Row → DB × List (Row × List Event)
  | db, [] => (db, [])
  | db, row :: rest =>
    let s := stepRow cfg db row
    let r := runRows cfg s.1 rest
    (r.1, (row, s.2) :: r.2)

/-- Result of one `enrich_movies` run.  After the final
`save_cache(cache)` on line 193 the durable cache file equals
`db.cache`, so a following run loads exactly `db.cache`. -/
structure EtlResult where
  db : DB
  trace : List (Row × List Event)

/-- `enrich_movies(conn, api_key, mock_cache)` (lines 134-194): loads
the cache file into the working dict, iterates the movies rows, and
finishes with a last `save_cache` and a summary log line. -/
def enrich_movies (cfg : Cfg) (file : Cache) (store : Store) (rows : List Row) :
    EtlResult :=
  let r := runRows cfg { cache := file, store := store, processed := 0, hits := 0, misses := 0 } rows
  { db := r.1, trace := r.2 }

/-- All events of a trace, in program order. -/
def traceEvents (tr : List (Row × List Event)) : List Event :=
  (tr.map Prod.snd).flatten

/-- Complete event list of one run, including the final `save_cache`
(line 193) and the summary log (line 194). -/
def runEvents (r : EtlResult) : List Event :=
  traceEvents r.trace ++
    [Event.saveCache,
      Event.logged ("Enrichment done. Processed:" ++ toString r.db.processed ++
        " cache_hits:" ++ toString r.db.hits ++ " cache_misses:" ++ toString r.db.misses)]

/-- The enriched upserts contained in an event list, in order. -/
def upsertsOfEv (l : List Event) : List (Int × EnrichedRow) :=
  l.filterMap fun e =>
    match e with
    | Event.upsert i er => some (i, er)
    | _ => none

/-- The enriched upserts of a whole trace, in order. -/
def upsertsOfTrace (tr : List (Row × List Event)) : List (Int × EnrichedRow) :=
  upsertsOfEv (traceEvents tr)

/-- Replay a list of keyed upserts over a store. -/
def applyUpserts (s : Store) (w : List (Int × EnrichedRow)) : Store :=
  w.foldl (fun s p => setA s p.1 p.2) s

/-- The value of the last write for a given id in a write list. -/
def lastW : List (Int × EnrichedRow) → Int → Option EnrichedRow
  | [], _ => none
  | (j, v) :: t, i =>
    match lastW t i with
    | some v' => some v'
    | none => if j = i then some v else none

/-- A network oracle that always fails, for concrete runs that must
never (or always unsuccessfully) reach the HTTP layer. -/
def exNet : String → Option Int → Except String Payload :=
  fun _ _ => Except.error "connection refused"

/-- A concrete base record. -/
def exRow : Row := { movieId := 1, title := "Toy Story", year := some 1995, genres := some "Animation" }

/-- A second concrete base record sharing (title, year) with `exRow`
but with a different id. -/
def exRow2 : Row := { movieId := 2, title := "Toy Story", year := some 1995, genres := none }

/-- A concrete found payload. -/
def exPayload : Payload :=
  [("Director", "X"), ("imdbRating", "8.1"), ("Response", "True"), ("Awards", "none")]

/-- A concrete payload whose rating string does not parse as a number. -/
def exPayloadBadRating : Payload := [("imdbRating", "abc"), ("Director", "Y")]

/-- A concrete payload that contains keys outside the extracted set,
among them the key `Title`. -/
def exPayloadExtra : Payload := [("Title", "X"), ("Custom", "Z")]

/-- A concrete non-empty payload with no `Response` field at all. -/
def exPayloadNoResp : Payload := [("Director", "Z")]

/-- Mock-mode configuration whose mock mapping resolves `exRow`. -/
def cfgMock : Cfg :=
  { net := exNet, apiKey := none,
    mockCache := some [(makeKey "Toy Story" (some 1995), some exPayload)] }

/-- Mock-mode configuration resolving `exRow` to the bad-rating payload. -/
def cfgMockBad : Cfg :=
  { net := exNet, apiKey := none,
    mockCache := some [(makeKey "Toy Story" (some 1995), some exPayloadBadRating)] }

/-- Live-mode configuration with a credential but a failing network. -/
def cfgLiveErr : Cfg := { net := exNet, apiKey := some "k", mockCache := none }

/-- Live-mode configuration without a credential. -/
def cfgNoKey : Cfg := { net := exNet, apiKey := none, mockCache := none }

/-- The empty run state. -/
def dbEmpty : DB := { cache := [], store := [], processed := 0, hits := 0, misses := 0 }

/-- A run state whose cache already holds the key of `exRow` with the
found payload. -/
def dbHit : DB :=
  { cache := [(makeKey "Toy Story" (some 1995), some exPayload)], store := [],
    processed := 0, hits := 0, misses := 0 }

/-- A run state whose cache already holds the key of `exRow` with the
bad-rating payload. -/
def dbHitBad : DB :=
  { cache := [(makeKey "Toy Story" (some 1995), some exPayloadBadRating)], store := [],
    processed := 0, hits := 0, misses := 0 }

/-- A run state whose cache already holds the key of `exRow` with the
payload that has no `Response` field. -/
def dbHitNoResp : DB :=
  { cache := [(makeKey "Toy Story" (some 1995), some exPayloadNoResp)], store := [],
    processed := 0, hits := 0, misses := 0 }

theorem getA_setA {α β : Type} [DecidableEq α] (m : List (α × β)) (k k' : α) (v : β) :
    getA (setA m k v) k' = if k = k' then some v else getA m k' := by
  induction m with
  | nil => simp [setA, getA]
  | cons kv t ih =>
    obtain ⟨a, b⟩ := kv
    simp only [setA]
    by_cases h1 : a = k
    · subst h1
      simp only [if_pos rfl, getA]
      by_cases h2 : a = k'
      · simp [h2]
      · simp [h2]
    · simp only [if_neg h1, getA]
      by_cases h2 : a = k'
      · have h3 : ¬ k = k' := fun h => h1 (h2.trans h.symm)
        simp [h2, h3]
      · simp [h2, ih]

theorem getA_setA_self {α β : Type} [DecidableEq α] (m : List (α × β)) (k : α) (v : β) :
    getA (setA m k v) k = some v := by
  simp [getA_setA]

theorem getA_setA_ne {α β : Type} [DecidableEq α] (m : List (α × β)) (k k' : α) (v : β)
    (h : ¬(k = k')) : getA (setA m k v) k' = getA m k' := by
  simp [getA_setA, h]

theorem finishRow_cache (db : DB) (row : Row) (d : Option Payload) (ev : List Event) :
    (finishRow db row d ev).1.cache = db.cache := by
  unfold finishRow
  cases writeFor row d <;> rfl

theorem finishRow_ev (db : DB) (row : Row) (d : Option Payload) (ev : List Event) :
    (finishRow db row d ev).2 = ev ++ evOfWrite (writeFor row d) := by
  unfold finishRow evOfWrite
  cases writeFor row d <;> simp

theorem finishRow_store (db : DB) (row : Row) (d : Option Payload) (ev : List Event) :
    (finishRow db row d ev).1.store = applyUpserts db.store (wlOfWrite (writeFor row d)) := by
  unfold finishRow wlOfWrite applyUpserts
  cases writeFor row d <;> rfl

theorem missTail_cache (db : DB) (row : Row) (key : String) (d : Option Payload)
    (ev : List Event) : (missTail db row key d ev).1.cache = setA db.cache key d := by
  unfold missTail
  rw [finishRow_cache]

theorem missTail_ev (db : DB) (row : Row) (key : String) (d : Option Payload)
    (ev : List Event) :
    (missTail db row key d ev).2 = (ev ++ [Event.saveCache, Event.sleep]) ++ evOfWrite (writeFor row d) := by
  unfold missTail
  rw [finishRow_ev]

theorem missTail_store (db : DB) (row : Row) (key : String) (d : Option Payload)
    (ev : List Event) :
    (missTail db row key d ev).1.store = applyUpserts db.store (wlOfWrite (writeFor row d)) := by
  unfold missTail
  rw [finishRow_store]

theorem stepRow_hit (cfg : Cfg) (db : DB) (row : Row) (d : Option Payload)
    (h : getA db.cache (makeKey row.title row.year) = some d) :
    stepRow cfg db row = finishRow { db with hits := db.hits + 1 } row d [] := by
  simp only [stepRow, h]

theorem stepRow_mock (cfg : Cfg) (db : DB) (row : Row) (mc : Cache)
    (h : getA db.cache (makeKey row.title row.year) = none)
    (hm : cfg.mockCache = some mc) :
    stepRow cfg db row =
      missTail db row (makeKey row.title row.year)
        ((getA mc (makeKey row.title row.year)).getD none) [] := by
  simp only [stepRow, h, hm]

theorem stepRow_nokey (cfg : Cfg) (db : DB) (row : Row)
    (h : getA db.cache (makeKey row.title row.year) = none)
    (hm : cfg.mockCache = none) (hk : hasKey cfg.apiKey = false) :
    stepRow cfg db row = (db, [Event.logged (skipMsg (makeKey row.title row.year))]) := by
  simp [stepRow, h, hm, hk]

theorem stepRow_ok (cfg : Cfg) (db : DB) (row : Row) (p : Payload)
    (h : getA db.cache (makeKey row.title row.year) = none)
    (hm : cfg.mockCache = none) (hk : hasKey cfg.apiKey = true)
    (hn : cfg.net row.title row.year = Except.ok p) :
    stepRow cfg db row =
      missTail db row (makeKey row.title row.year) (some p)
        [Event.call row.title row.year] := by
  simp [stepRow, h, hm, hk, query_omdb, hn]

theorem stepRow_err (cfg : Cfg) (db : DB) (row : Row) (e : String)
    (h : getA db.cache (makeKey row.title row.year) = none)
    (hm : cfg.mockCache = none) (hk : hasKey cfg.apiKey = true)
    (hn : cfg.net row.title row.year = Except.error e) :
    stepRow cfg db row =
      missTail db row (makeKey row.title row.year) none
        [Event.call row.title row.year, Event.logged (failMsg row.title row.year e)] := by
  simp [stepRow, h, hm, hk, query_omdb, hn]

theorem stepRow_cases (cfg : Cfg) (db : DB) (row : Row) :
    (∃ d, getA db.cache (makeKey row.title row.year) = some d ∧
      stepRow cfg db row = finishRow { db with hits := db.hits + 1 } row d []) ∨
    (∃ d ev0, getA db.cache (makeKey row.title row.year) = none ∧
      upsertsOfEv ev0 = [] ∧
      (∀ t y, Event.call t y ∈ ev0 → t = row.title ∧ y = row.year) ∧
      Event.sleep ∉ ev0 ∧
      (∀ t y, ev0.count (Event.call t y) ≤ 1) ∧
      stepRow cfg db row = missTail db row (makeKey row.title row.year) d ev0) ∨
    (getA db.cache (makeKey row.title row.year) = none ∧ cfg.mockCache = none ∧
      hasKey cfg.apiKey = false ∧
      stepRow cfg db row = (db, [Event.logged (skipMsg (makeKey row.title row.year))])) := by
  rcases hc : getA db.cache (makeKey row.title row.year) with _ | d
  · rcases hm : cfg.mockCache with _ | mc
    · rcases hk : hasKey cfg.apiKey with _ | _
      · exact Or.inr (Or.inr ⟨rfl, rfl, rfl, stepRow_nokey cfg db row hc hm hk⟩)
      · rcases hn : cfg.net row.title row.year with e | p
        · refine Or.inr (Or.inl ⟨none,
            [Event.call row.title row.year, Event.logged (failMsg row.title row.year e)],
            rfl, rfl, ?_, ?_, ?_, stepRow_err cfg db row e hc hm hk hn⟩)
          · intro t y ht
            simp only [List.mem_cons, List.not_mem_nil, or_false] at ht
            rcases ht with h | h
            · exact ⟨(Event.call.injEq _ _ _ _ ▸ h).1, (Event.call.injEq _ _ _ _ ▸ h).2⟩
            · cases h
          · simp
          · intro t y
            simp [List.count_cons]
            split <;> simp
        · refine Or.inr (Or.inl ⟨some p, [Event.call row.title row.year],
            rfl, rfl, ?_, ?_, ?_, stepRow_ok cfg db row p hc hm hk hn⟩)
          · intro t y ht
            simp only [List.mem_cons, List.not_mem_nil, or_false] at ht
            exact ⟨(Event.call.injEq _ _ _ _ ▸ ht).1, (Event.call.injEq _ _ _ _ ▸ ht).2⟩
          · simp
          · intro t y
            simp [List.count_cons]
            split <;> simp
    · refine Or.inr (Or.inl ⟨(getA mc (makeKey row.title row.year)).getD none, [],
        rfl, rfl, ?_, ?_, ?_, stepRow_mock cfg db row mc hc hm⟩)
      · intro t y ht
        cases ht
      · simp
      · intro t y
        simp
  · exact Or.inl ⟨d, rfl, stepRow_hit cfg db row d hc⟩

theorem upsertsOfEv_append (a b : List Event) :
    upsertsOfEv (a ++ b) = upsertsOfEv a ++ upsertsOfEv b := by
  unfold upsertsOfEv
  exact List.filterMap_append a b _

theorem upsertsOfEv_evOfWrite (w : Option (Int × EnrichedRow)) :
    upsertsOfEv (evOfWrite w) = wlOfWrite w := by
  cases w <;> rfl

theorem stepRow_cache_eq (cfg : Cfg) (db : DB) (row : Row) :
    (stepRow cfg db row).1.cache = db.cache ∨
    (getA db.cache (makeKey row.title row.year) = none ∧
      ∃ d, (stepRow cfg db row).1.cache = setA db.cache (makeKey row.title row.year) d) := by
  rcases stepRow_cases cfg db row with ⟨d, hc, hstep⟩ | ⟨d, ev0, hc, _, _, _, _, hstep⟩ |
    ⟨hc, _, _, hstep⟩
  · left
    rw [hstep, finishRow_cache]
  · right
    exact ⟨hc, d, by rw [hstep, missTail_cache]⟩
  · left
    rw [hstep]

theorem stepRow_cache_mono (cfg : Cfg) (db : DB) (row : Row) (k : String)
    (d : Option Payload) (h : getA db.cache k = some d) :
    getA (stepRow cfg db row).1.cache k = some d := by
  rcases stepRow_cache_eq cfg db row with he | ⟨hc, d', he⟩
  · rw [he]
    exact h
  · rw [he, getA_setA]
    split
    · next heq => rw [heq] at hc; rw [hc] at h; cases h
    · exact h

theorem runRows_cache_mono (cfg : Cfg) (rows : List Row) : ∀ (db : DB) (k : String)
    (d : Option Payload), getA db.cache k = some d →
    getA (runRows cfg db rows).1.cache k = some d := by
  induction rows with
  | nil => intro db k d h; exact h
  | cons row rest ih =>
    intro db k d h
    exact ih (stepRow cfg db row).1 k d (stepRow_cache_mono cfg db row k d h)

theorem runRows_length (cfg : Cfg) (rows : List Row) : ∀ db : DB,
    (runRows cfg db rows).2.length = rows.length := by
  induction rows with
  | nil => intro db; rfl
  | cons row rest ih =>
    intro db
    show ((row, (stepRow cfg db row).2) :: (runRows cfg (stepRow cfg db row).1 rest).2).length = _
    simp [ih]

theorem stepRow_cache_skipcfg (cfg : Cfg) (db : DB) (row : Row)
    (hm : cfg.mockCache = none) (hk : hasKey cfg.apiKey = false) :
    (stepRow cfg db row).1.cache = db.cache := by
  rcases hc : getA db.cache (makeKey row.title row.year) with _ | d
  · rw [stepRow_nokey cfg db row hc hm hk]
  · rw [stepRow_hit cfg db row d hc, finishRow_cache]

theorem runRows_cache_skipcfg (cfg : Cfg) (rows : List Row)
    (hm : cfg.mockCache = none) (hk : hasKey cfg.apiKey = false) : ∀ db : DB,
    (runRows cfg db rows).1.cache = db.cache := by
  induction rows with
  | nil => intro db; rfl
  | cons row rest ih =>
    intro db
    show (runRows cfg (stepRow cfg db row).1 rest).1.cache = db.cache
    rw [ih (stepRow cfg db row).1, stepRow_cache_skipcfg cfg db row hm hk]

theorem runRows_cons (cfg : Cfg) (db : DB) (row : Row) (rest : List Row) :
    runRows cfg db (row :: rest) =
      ((runRows cfg (stepRow cfg db row).1 rest).1,
        (row, (stepRow cfg db row).2) :: (runRows cfg (stepRow cfg db row).1 rest).2) := rfl

theorem writeFor_shape (row : Row) (d : Option Payload) :
    writeFor row d = none ∨
    ∃ p, d = some p ∧ writeFor row d = some (row.movieId, normalizeRow row p) := by
  rcases d with _ | p
  · left
    rfl
  · unfold writeFor
    by_cases hb : (!p.isEmpty && respNotFalse p) = true
    · right
      exact ⟨p, rfl, by simp [hb]⟩
    · left
      simp [hb]

theorem stepRow_call_mem (cfg : Cfg) (db : DB) (row : Row) (t : String) (y : Option Int)
    (h : Event.call t y ∈ (stepRow cfg db row).2) :
    t = row.title ∧ y = row.year ∧
    getA db.cache (makeKey row.title row.year) = none ∧
    cfg.mockCache = none ∧ hasKey cfg.apiKey = true ∧
    (getA (stepRow cfg db row).1.cache (makeKey row.title row.year)).isSome := by
  rcases hc : getA db.cache (makeKey row.title row.year) with _ | d
  · rcases hm : cfg.mockCache with _ | mc
    · rcases hk : hasKey cfg.apiKey with _ | _
      · rw [stepRow_nokey cfg db row hc hm hk] at h
        simp at h
      · rcases hn : cfg.net row.title row.year with e | p
        · rw [stepRow_err cfg db row e hc hm hk hn] at h ⊢
          rw [missTail_ev] at h
          rw [missTail_cache]
          simp [writeFor, evOfWrite] at h
          obtain ⟨ht, hy⟩ := h
          exact ⟨ht, hy, rfl, rfl, rfl, by simp [getA_setA_self]⟩
        · rw [stepRow_ok cfg db row p hc hm hk hn] at h ⊢
          rw [missTail_ev] at h
          rw [missTail_cache]
          rcases writeFor_shape row (some p) with hw | ⟨q, hq, hw⟩ <;>
            rw [hw] at h <;> simp [evOfWrite] at h <;>
            obtain ⟨ht, hy⟩ := h <;>
            exact ⟨ht, hy, rfl, rfl, rfl, by simp [getA_setA_self]⟩
    · rw [stepRow_mock cfg db row mc hc hm] at h
      rw [missTail_ev] at h
      rcases writeFor_shape row ((getA mc (makeKey row.title row.year)).getD none) with
        hw | ⟨q, hq, hw⟩ <;> rw [hw] at h <;> simp [evOfWrite] at h
  · rw [stepRow_hit cfg db row d hc] at h
    rw [finishRow_ev] at h
    rcases writeFor_shape row d with hw | ⟨q, hq, hw⟩ <;> rw [hw] at h <;>
      simp [evOfWrite] at h

theorem stepRow_sleep_iff (cfg : Cfg) (db : DB) (row : Row) :
    Event.sleep ∈ (stepRow cfg db row).2 ↔
      (getA db.cache (makeKey row.title row.year) = none ∧
        (cfg.mockCache.isSome ∨ hasKey cfg.apiKey = true)) := by
  rcases hc : getA db.cache (makeKey row.title row.year) with _ | d
  · rcases hm : cfg.mockCache with _ | mc
    · rcases hk : hasKey cfg.apiKey with _ | _
      · rw [stepRow_nokey cfg db row hc hm hk]
        simp
      · rcases hn : cfg.net row.title row.year with e | p
        · rw [stepRow_err cfg db row e hc hm hk hn, missTail_ev]
          simp [writeFor, evOfWrite]
        · rw [stepRow_ok cfg db row p hc hm hk hn, missTail_ev]
          rcases writeFor_shape row (some p) with hw | ⟨q, hq, hw⟩ <;>
            rw [hw] <;> simp [evOfWrite]
    · rw [stepRow_mock cfg db row mc hc hm, missTail_ev]
      rcases writeFor_shape row ((getA mc (makeKey row.title row.year)).getD none) with
        hw | ⟨q, hq, hw⟩ <;> rw [hw] <;> simp [evOfWrite]
  · rw [stepRow_hit cfg db row d hc, finishRow_ev]
    rcases writeFor_shape row d with hw | ⟨q, hq, hw⟩ <;> rw [hw] <;>
      simp [evOfWrite]

theorem upsertsOfEv_pause : upsertsOfEv [Event.saveCache, Event.sleep] = [] := rfl

theorem stepRow_store (cfg : Cfg) (db : DB) (row : Row) :
    (stepRow cfg db row).1.store =
      applyUpserts db.store (upsertsOfEv (stepRow cfg db row).2) := by
  rcases stepRow_cases cfg db row with ⟨d, hc, hstep⟩ |
    ⟨d, ev0, hc, hup, _, _, _, hstep⟩ | ⟨hc, hm, hk, hstep⟩
  · rw [hstep, finishRow_store, finishRow_ev, List.nil_append, upsertsOfEv_evOfWrite]
  · rw [hstep, missTail_store, missTail_ev, upsertsOfEv_append, upsertsOfEv_append,
      hup, upsertsOfEv_pause, upsertsOfEv_evOfWrite, List.append_nil, List.nil_append]
  · rw [hstep]
    rfl

theorem traceEvents_cons (re : Row × List Event) (tr : List (Row × List Event)) :
    traceEvents (re :: tr) = re.2 ++ traceEvents tr := by
  unfold traceEvents
  simp

theorem upsertsOfTrace_cons (re : Row × List Event) (tr : List (Row × List Event)) :
    upsertsOfTrace (re :: tr) = upsertsOfEv re.2 ++ upsertsOfTrace tr := by
  unfold upsertsOfTrace
  rw [traceEvents_cons, upsertsOfEv_append]

theorem applyUpserts_append (s : Store) (a b : List (Int × EnrichedRow)) :
    applyUpserts s (a ++ b) = applyUpserts (applyUpserts s a) b := by
  unfold applyUpserts
  exact List.foldl_append _ _ _ _

theorem runRows_store (cfg : Cfg) (rows : List Row) : ∀ db : DB,
    (runRows cfg db rows).1.store =
      applyUpserts db.store (upsertsOfTrace (runRows cfg db rows).2) := by
  induction rows with
  | nil => intro db; rfl
  | cons row rest ih =>
    intro db
    show (runRows cfg (stepRow cfg db row).1 rest).1.store =
      applyUpserts db.store (upsertsOfTrace ((row, (stepRow cfg db row).2) ::
        (runRows cfg (stepRow cfg db row).1 rest).2))
    rw [upsertsOfTrace_cons, applyUpserts_append, ← stepRow_store, ih]

theorem getA_applyUpserts (w : List (Int × EnrichedRow)) : ∀ (s : Store) (i : Int),
    getA (applyUpserts s w) i = (lastW w i).elim (getA s i) some := by
  induction w with
  | nil => intro s i; rfl
  | cons jv t ih =>
    intro s i
    obtain ⟨j, v⟩ := jv
    show getA (applyUpserts (setA s j v) t) i = _
    rw [ih]
    simp only [lastW]
    rcases hl : lastW t i with _ | v'
    · by_cases hj : j = i
      · subst hj
        simp [getA_setA_self]
      · simp [hj, getA_setA_ne _ _ _ _ hj]
    · simp

theorem getA_applyUpserts_twice (s : Store) (w : List (Int × EnrichedRow)) (i : Int) :
    getA (applyUpserts (applyUpserts s w) w) i = getA (applyUpserts s w) i := by
  rw [getA_applyUpserts, getA_applyUpserts]
  rcases lastW w i with _ | v <;> rfl

theorem lastW_eq_none (w : List (Int × EnrichedRow)) (i : Int)
    (h : ∀ jv ∈ w, jv.1 ≠ i) : lastW w i = none := by
  induction w with
  | nil => rfl
  | cons jv t ih =>
    obtain ⟨j, v⟩ := jv
    simp only [lastW]
    rw [ih (fun x hx => h x (List.mem_cons_of_mem _ hx))]
    simp [h (j, v) (List.mem_cons_self _ _)]

theorem lastW_of_mem_nodup (w : List (Int × EnrichedRow)) (i : Int) (v : EnrichedRow)
    (hmem : (i, v) ∈ w) (hnd : (w.map Prod.fst).Nodup) : lastW w i = some v := by
  induction w with
  | nil => cases hmem
  | cons jv t ih =>
    obtain ⟨j, u⟩ := jv
    have hnd' : ((t.map Prod.fst)).Nodup := (List.nodup_cons.mp hnd).2
    have hjn : j ∉ t.map Prod.fst := (List.nodup_cons.mp hnd).1
    simp only [lastW]
    rcases List.mem_cons.mp hmem with heq | hmem'
    · have hj : j = i := (congrArg Prod.fst heq).symm
      have hu : u = v := (congrArg Prod.snd heq).symm
      subst hj
      subst hu
      have hnone : lastW t j = none := by
        apply lastW_eq_none
        intro x hx hxj
        exact hjn (hxj ▸ List.mem_map_of_mem Prod.fst hx)
      rw [hnone]
      simp
    · rw [ih hmem' hnd']

theorem stepRow_upserts (cfg : Cfg) (db : DB) (row : Row) :
    upsertsOfEv (stepRow cfg db row).2 = [] ∨
    ∃ p, upsertsOfEv (stepRow cfg db row).2 = [(row.movieId, normalizeRow row p)] := by
  rcases stepRow_cases cfg db row with ⟨d, hc, hstep⟩ |
    ⟨d, ev0, hc, hup, _, _, _, hstep⟩ | ⟨hc, hm, hk, hstep⟩
  · rcases writeFor_shape row d with hw | ⟨p, hp, hw⟩
    · left
      rw [hstep, finishRow_ev, hw]
      rfl
    · right
      refine ⟨p, ?_⟩
      rw [hstep, finishRow_ev, hw]
      rfl
  · rcases writeFor_shape row d with hw | ⟨p, hp, hw⟩
    · left
      rw [hstep, missTail_ev, hw, upsertsOfEv_append, upsertsOfEv_append, hup,
        upsertsOfEv_pause, upsertsOfEv_evOfWrite]
      rfl
    · right
      refine ⟨p, ?_⟩
      rw [hstep, missTail_ev, hw, upsertsOfEv_append, upsertsOfEv_append, hup,
        upsertsOfEv_pause, upsertsOfEv_evOfWrite]
      rfl
  · left
    rw [hstep]
    rfl

theorem runRows_upserts_ids (cfg : Cfg) (rows : List Row) : ∀ db : DB,
    List.Sublist ((upsertsOfTrace (runRows cfg db rows).2).map Prod.fst)
      (rows.map Row.movieId) := by
  induction rows with
  | nil =>
    intro db
    exact List.nil_sublist _
  | cons row rest ih =>
    intro db
    show List.Sublist ((upsertsOfTrace ((row, (stepRow cfg db row).2) ::
      (runRows cfg (stepRow cfg db row).1 rest).2)).map Prod.fst) _
    rw [upsertsOfTrace_cons, List.map_append, List.map_cons]
    rcases stepRow_upserts cfg db row with h | ⟨p, h⟩
    · rw [h]
      simp only [List.map_nil, List.nil_append]
      exact (ih _).cons _
    · rw [h]
      simp only [List.map_cons, List.map_nil, List.singleton_append]
      exact (ih _).cons₂ _

theorem runRows_upserts_mem (cfg : Cfg) (rows : List Row) (db : DB) (i : Int)
    (er : EnrichedRow) (h : (i, er) ∈ upsertsOfTrace (runRows cfg db rows).2) :
    i ∈ rows.map Row.movieId :=
  (runRows_upserts_ids cfg rows db).subset (List.mem_map_of_mem Prod.fst h)

theorem stepRow_call_count (cfg : Cfg) (db : DB) (row : Row) (t : String) (y : Option Int) :
    (stepRow cfg db row).2.count (Event.call t y) ≤ 1 := by
  rcases stepRow_cases cfg db row with ⟨d, hc, hstep⟩ |
    ⟨d, ev0, hc, hup, _, _, hcnt, hstep⟩ | ⟨hc, hm, hk, hstep⟩
  · rw [hstep, finishRow_ev, List.nil_append]
    rcases writeFor_shape row d with hw | ⟨p, hp, hw⟩ <;> rw [hw] <;>
      simp [evOfWrite]
  · rw [hstep, missTail_ev, List.count_append, List.count_append]
    have h2 : ([Event.saveCache, Event.sleep]).count (Event.call t y) = 0 := by
      simp
    have h3 : (evOfWrite (writeFor row d)).count (Event.call t y) = 0 := by
      rcases writeFor_shape row d with hw | ⟨p, hp, hw⟩ <;> rw [hw] <;>
        simp [evOfWrite]
    rw [h2, h3]
    simpa using hcnt t y
  · rw [hstep]
    simp

theorem runRows_call_count (cfg : Cfg) (t : String) (y : Option Int) (rows : List Row) :
    ∀ db : DB,
    ((getA db.cache (makeKey t y)).isSome →
      (traceEvents (runRows cfg db rows).2).count (Event.call t y) = 0) ∧
    (traceEvents (runRows cfg db rows).2).count (Event.call t y) ≤ 1 := by
  induction rows with
  | nil =>
    intro db
    constructor
    · intro _
      rfl
    · exact Nat.zero_le 1
  | cons row rest ih =>
    intro db
    have htr : traceEvents (runRows cfg db (row :: rest)).2 =
        (stepRow cfg db row).2 ++ traceEvents (runRows cfg (stepRow cfg db row).1 rest).2 := by
      show traceEvents ((row, (stepRow cfg db row).2) ::
        (runRows cfg (stepRow cfg db row).1 rest).2) = _
      rw [traceEvents_cons]
    rw [htr, List.count_append]
    constructor
    · intro hs
      have hstep0 : (stepRow cfg db row).2.count (Event.call t y) = 0 := by
        rw [List.count_eq_zero]
        intro hmem
        obtain ⟨ht, hy, hnone, _, _, _⟩ := stepRow_call_mem cfg db row t y hmem
        rw [ht, hy, hnone] at hs
        simp at hs
      obtain ⟨d, hd⟩ := Option.isSome_iff_exists.mp hs
      have hs' : (getA (stepRow cfg db row).1.cache (makeKey t y)).isSome = true := by
        rw [stepRow_cache_mono cfg db row _ d hd]
        rfl
      rw [hstep0, (ih _).1 hs']
    · by_cases hmem : Event.call t y ∈ (stepRow cfg db row).2
      · obtain ⟨ht, hy, hnone, _, _, hsome⟩ := stepRow_call_mem cfg db row t y hmem
        have hrest0 : (traceEvents (runRows cfg (stepRow cfg db row).1 rest).2).count
            (Event.call t y) = 0 := by
          apply (ih _).1
          rw [ht, hy]
          exact hsome
        rw [hrest0, Nat.add_zero]
        exact stepRow_call_count cfg db row t y
      · rw [List.count_eq_zero.mpr hmem, Nat.zero_add]
        exact (ih _).2

theorem runRows_trace_hit (cfg : Cfg) (rows : List Row) :
    ∀ (db : DB) (row : Row) (ev : List Event),
    (row, ev) ∈ (runRows cfg db rows).2 →
    (getA db.cache (makeKey row.title row.year)).isSome →
    (∀ t y, Event.call t y ∉ ev) ∧ Event.sleep ∉ ev := by
  induction rows with
  | nil => intro db row ev hmem _; cases hmem
  | cons r rest ih =>
    intro db row ev hmem hsome
    have hmem' : (row, ev) ∈ ((r, (stepRow cfg db r).2) ::
      (runRows cfg (stepRow cfg db r).1 rest).2) := hmem
    rcases List.mem_cons.mp hmem' with heq | htail
    · have hrow : row = r := congrArg Prod.fst heq
      have hev : ev = (stepRow cfg db r).2 := congrArg Prod.snd heq
      subst hrow
      constructor
      · intro t y hcall
        rw [hev] at hcall
        obtain ⟨_, _, hnone, _, _, _⟩ := stepRow_call_mem cfg db row t y hcall
        rw [hnone] at hsome
        simp at hsome
      · intro hsleep
        rw [hev] at hsleep
        obtain ⟨hnone, _⟩ := (stepRow_sleep_iff cfg db row).mp hsleep
        rw [hnone] at hsome
        simp at hsome
    · obtain ⟨d, hd⟩ := Option.isSome_iff_exists.mp hsome
      exact ih (stepRow cfg db r).1 row ev htail
        (by rw [stepRow_cache_mono cfg db r _ d hd]; rfl)

theorem runRows_replay (cfg : Cfg) (rows : List Row) : ∀ (db db₂ : DB),
    db₂.cache = (runRows cfg db rows).1.cache →
    (runRows cfg db₂ rows).1.cache = db₂.cache ∧
    upsertsOfTrace (runRows cfg db₂ rows).2 = upsertsOfTrace (runRows cfg db rows).2 := by
  induction rows with
  | nil =>
    intro db db₂ h
    exact ⟨rfl, rfl⟩
  | cons row rest ih =>
    intro db db₂ h
    rcases stepRow_cases cfg db row with ⟨d, hc, hstep⟩ |
      ⟨d, ev0, hc, hup, _, _, _, hstep⟩ | ⟨hc, hm, hk, hstep⟩
    · have hstep1cache : (stepRow cfg db row).1.cache = db.cache := by
        rw [hstep, finishRow_cache]
      have hkey1 : getA (stepRow cfg db row).1.cache (makeKey row.title row.year) = some d := by
        rw [hstep1cache]
        exact hc
      have hkeyF := runRows_cache_mono cfg rest (stepRow cfg db row).1 _ d hkey1
      have hkey2 : getA db₂.cache (makeKey row.title row.year) = some d := by
        rw [h]
        exact hkeyF
      have hstep2 : stepRow cfg db₂ row = finishRow { db₂ with hits := db₂.hits + 1 } row d [] :=
        stepRow_hit cfg db₂ row d hkey2
      have hstep2cache : (stepRow cfg db₂ row).1.cache = db₂.cache := by
        rw [hstep2, finishRow_cache]
      have hih := ih (stepRow cfg db row).1 (stepRow cfg db₂ row).1
        (by rw [hstep2cache, h]; rfl)
      constructor
      · show (runRows cfg (stepRow cfg db₂ row).1 rest).1.cache = db₂.cache
        rw [hih.1, hstep2cache]
      · show upsertsOfTrace ((row, (stepRow cfg db₂ row).2) ::
            (runRows cfg (stepRow cfg db₂ row).1 rest).2) =
          upsertsOfTrace ((row, (stepRow cfg db row).2) ::
            (runRows cfg (stepRow cfg db row).1 rest).2)
        rw [upsertsOfTrace_cons, upsertsOfTrace_cons, hih.2]
        congr 1
        rw [hstep2, hstep, finishRow_ev, finishRow_ev]
    · have hstep1cache : (stepRow cfg db row).1.cache =
          setA db.cache (makeKey row.title row.year) d := by
        rw [hstep, missTail_cache]
      have hkey1 : getA (stepRow cfg db row).1.cache (makeKey row.title row.year) = some d := by
        rw [hstep1cache]
        exact getA_setA_self _ _ _
      have hkeyF := runRows_cache_mono cfg rest (stepRow cfg db row).1 _ d hkey1
      have hkey2 : getA db₂.cache (makeKey row.title row.year) = some d := by
        rw [h]
        exact hkeyF
      have hstep2 : stepRow cfg db₂ row = finishRow { db₂ with hits := db₂.hits + 1 } row d [] :=
        stepRow_hit cfg db₂ row d hkey2
      have hstep2cache : (stepRow cfg db₂ row).1.cache = db₂.cache := by
        rw [hstep2, finishRow_cache]
      have hih := ih (stepRow cfg db row).1 (stepRow cfg db₂ row).1
        (by rw [hstep2cache, h]; rfl)
      constructor
      · show (runRows cfg (stepRow cfg db₂ row).1 rest).1.cache = db₂.cache
        rw [hih.1, hstep2cache]
      · show upsertsOfTrace ((row, (stepRow cfg db₂ row).2) ::
            (runRows cfg (stepRow cfg db₂ row).1 rest).2) =
          upsertsOfTrace ((row, (stepRow cfg db row).2) ::
            (runRows cfg (stepRow cfg db row).1 rest).2)
        rw [upsertsOfTrace_cons, upsertsOfTrace_cons, hih.2]
        congr 1
        rw [hstep2, hstep, finishRow_ev, missTail_ev, List.nil_append,
          upsertsOfEv_append, upsertsOfEv_append, hup, upsertsOfEv_pause,
          upsertsOfEv_evOfWrite]
        simp
    · have hkey2 : getA db₂.cache (makeKey row.title row.year) = none := by
        rw [h]
        show getA (runRows cfg (stepRow cfg db row).1 rest).1.cache _ = none
        rw [runRows_cache_skipcfg cfg rest hm hk (stepRow cfg db row).1, hstep]
        exact hc
      have hstep2 : stepRow cfg db₂ row =
          (db₂, [Event.logged (skipMsg (makeKey row.title row.year))]) :=
        stepRow_nokey cfg db₂ row hkey2 hm hk
      have hih := ih (stepRow cfg db row).1 (stepRow cfg db₂ row).1
        (by rw [hstep2]; exact h)
      constructor
      · show (runRows cfg (stepRow cfg db₂ row).1 rest).1.cache = db₂.cache
        rw [hih.1, hstep2]
      · show upsertsOfTrace ((row, (stepRow cfg db₂ row).2) ::
            (runRows cfg (stepRow cfg db₂ row).1 rest).2) =
          upsertsOfTrace ((row, (stepRow cfg db row).2) ::
            (runRows cfg (stepRow cfg db row).1 rest).2)
        rw [upsertsOfTrace_cons, upsertsOfTrace_cons, hih.2]
        congr 1
        rw [hstep2, hstep]

theorem runRows_idem_store (cfg : Cfg) (rows : List Row) (db db₂ : DB)
    (hc : db₂.cache = (runRows cfg db rows).1.cache)
    (hs : db₂.store = (runRows cfg db rows).1.store) (i : Int) :
    getA (runRows cfg db₂ rows).1.store i = getA (runRows cfg db rows).1.store i := by
  have hrep := runRows_replay cfg rows db db₂ hc
  rw [runRows_store cfg rows db₂, hrep.2, hs, runRows_store cfg rows db]
  exact getA_applyUpserts_twice db.store (upsertsOfTrace (runRows cfg db rows).2) i

theorem runRows_idem_writes (cfg : Cfg) (rows : List Row) (db db₂ : DB)
    (hc : db₂.cache = (runRows cfg db rows).1.cache)
    (hids : (rows.map Row.movieId).Nodup) (i : Int) (er : EnrichedRow)
    (hmem : (i, er) ∈ upsertsOfTrace (runRows cfg db₂ rows).2) :
    getA (runRows cfg db rows).1.store i = some er := by
  have hrep := runRows_replay cfg rows db db₂ hc
  rw [hrep.2] at hmem
  have hnd : ((upsertsOfTrace (runRows cfg db rows).2).map Prod.fst).Nodup :=
    (runRows_upserts_ids cfg rows db).nodup hids
  rw [runRows_store cfg rows db, getA_applyUpserts,
    lastW_of_mem_nodup _ i er hmem hnd]
  rfl

/-- C1: for every fixed network oracle, configuration, base-table row
list and initial cache-file and enriched-store state, running
`enrich_movies` a second time from the cache file and store left by the
first run yields an enriched store that agrees with the first run at
every id, and every enriched upsert performed by the second run writes
exactly the value the first run already stored at that id (rows list
has distinct primary ids, as guaranteed by the movies PRIMARY KEY). -/
theorem c1_pipeline_idempotent (cfg : Cfg) (file : Cache) (store : Store) (rows : List Row)
    (hids : (rows.map Row.movieId).Nodup) :
    (∀ i : Int,
      getA (enrich_movies cfg (enrich_movies cfg file store rows).db.cache
        (enrich_movies cfg file store rows).db.store rows).db.store i =
      getA (enrich_movies cfg file store rows).db.store i) ∧
    (∀ (i : Int) (er : EnrichedRow),
      Event.upsert i er ∈ runEvents (enrich_movies cfg
        (enrich_movies cfg file store rows).db.cache
        (enrich_movies cfg file store rows).db.store rows) →
      getA (enrich_movies cfg file store rows).db.store i = some er) := by
  constructor
  · intro i
    exact runRows_idem_store cfg rows
      { cache := file, store := store, processed := 0, hits := 0, misses := 0 }
      { cache := (enrich_movies cfg file store rows).db.cache,
        store := (enrich_movies cfg file store rows).db.store,
        processed := 0, hits := 0, misses := 0 } rfl rfl i
  · intro i er hmem
    have hmem' : (i, er) ∈ upsertsOfTrace (runRows cfg
        { cache := (enrich_movies cfg file store rows).db.cache,
          store := (enrich_movies cfg file store rows).db.store,
          processed := 0, hits := 0, misses := 0 } rows).2 := by
      unfold runEvents at hmem
      rcases List.mem_append.mp hmem with hA | hB
      · exact List.mem_filterMap.mpr ⟨Event.upsert i er, hA, rfl⟩
      · simp at hB
    exact runRows_idem_writes cfg rows
      { cache := file, store := store, processed := 0, hits := 0, misses := 0 }
      { cache := (enrich_movies cfg file store rows).db.cache,
        store := (enrich_movies cfg file store rows).db.store,
        processed := 0, hits := 0, misses := 0 } rfl hids i er hmem'

theorem c1_pipeline_idempotent_witness :
    (([exRow, exRow2].map Row.movieId)).Nodup ∧
    ((∀ i : Int,
      getA (enrich_movies cfgMock (enrich_movies cfgMock [] [] [exRow, exRow2]).db.cache
        (enrich_movies cfgMock [] [] [exRow, exRow2]).db.store [exRow, exRow2]).db.store i =
      getA (enrich_movies cfgMock [] [] [exRow, exRow2]).db.store i) ∧
    (∀ (i : Int) (er : EnrichedRow),
      Event.upsert i er ∈ runEvents (enrich_movies cfgMock
        (enrich_movies cfgMock [] [] [exRow, exRow2]).db.cache
        (enrich_movies cfgMock [] [] [exRow, exRow2]).db.store [exRow, exRow2]) →
      getA (enrich_movies cfgMock [] [] [exRow, exRow2]).db.store i = some er)) :=
  ⟨by decide, c1_pipeline_idempotent cfgMock [] [] [exRow, exRow2] (by decide)⟩

/-- C2: a record whose derived key is present in the cache mapping
loaded at the start of the run takes the hit path: its loop iteration
emits no external call and no inter-call delay. -/
theorem c2_cache_hit_no_call_no_delay (cfg : Cfg) (file : Cache) (store : Store)
    (rows : List Row) (row : Row) (ev : List Event)
    (hmem : (row, ev) ∈ (enrich_movies cfg file store rows).trace)
    (hkey : (getA file (makeKey row.title row.year)).isSome = true) :
    (∀ t y, Event.call t y ∉ ev) ∧ Event.sleep ∉ ev :=
  runRows_trace_hit cfg rows
    { cache := file, store := store, processed := 0, hits := 0, misses := 0 }
    row ev hmem hkey

theorem c2_cache_hit_no_call_no_delay_witness :
    ((exRow, [Event.upsert 1 (normalizeRow exRow exPayload)]) ∈
      (enrich_movies cfgNoKey [(makeKey "Toy Story" (some 1995), some exPayload)]
        [] [exRow]).trace) ∧
    (getA [(makeKey "Toy Story" (some 1995), some exPayload)]
      (makeKey exRow.title exRow.year)).isSome = true ∧
    ((∀ t y, Event.call t y ∉ [Event.upsert 1 (normalizeRow exRow exPayload)]) ∧
      Event.sleep ∉ [Event.upsert 1 (normalizeRow exRow exPayload)]) :=
  have htr : (enrich_movies cfgNoKey [(makeKey "Toy Story" (some 1995), some exPayload)]
      [] [exRow]).trace = [(exRow, [Event.upsert 1 (normalizeRow exRow exPayload)])] := rfl
  ⟨htr ▸ List.mem_cons_self _ _, by decide,
    c2_cache_hit_no_call_no_delay cfgNoKey
      [(makeKey "Toy Story" (some 1995), some exPayload)] [] [exRow] exRow
      [Event.upsert 1 (normalizeRow exRow exPayload)]
      (htr ▸ List.mem_cons_self _ _) (by decide)⟩

/-- C3 counterexample: in mock mode, a cache miss resolved from the
mock mapping emits the inter-call delay even though no live network
call happened, refuting the claim that the delay runs only when a live
call happened.  The full event list of the iteration is computed: a
cache save, the sleep, and the enriched upsert, with no call event. -/
theorem c3_counterexample :
    (stepRow cfgMock dbEmpty exRow).2 =
      [Event.saveCache, Event.sleep, Event.upsert 1 (normalizeRow exRow exPayload)] ∧
    Event.sleep ∈ (stepRow cfgMock dbEmpty exRow).2 ∧
    ((stepRow cfgMock dbEmpty exRow).2.all (fun e =>
      match e with
      | Event.call _ _ => false
      | _ => true)) = true := by
  have htr : (stepRow cfgMock dbEmpty exRow).2 =
      [Event.saveCache, Event.sleep, Event.upsert 1 (normalizeRow exRow exPayload)] := rfl
  refine ⟨htr, ?_, ?_⟩
  · rw [htr]
    exact List.mem_cons_of_mem _ (List.mem_cons_self _ _)
  · rw [htr]
    rfl

/-- C3 (amended): the inter-call delay of line 164 runs exactly when a
cache miss is resolved, that is whenever the key is absent from the
working cache and the record is not skipped (mock mode, or live mode
with a truthy credential), including mock-mode misses and failed live
calls; it never runs on a cache hit or on a skipped record. -/
theorem c3_delay_on_every_resolved_miss (cfg : Cfg) (db : DB) (row : Row) :
    Event.sleep ∈ (stepRow cfg db row).2 ↔
      (getA db.cache (makeKey row.title row.year) = none ∧
        (cfg.mockCache.isSome = true ∨ hasKey cfg.apiKey = true)) :=
  stepRow_sleep_iff cfg db row

/-- C4: in live mode with a truthy credential, when the external lookup
for a cache-missing record raises, the iteration emits exactly the call,
the failure log, the cache save and the delay (so the exception does not
propagate), stores the absence marker under the key, writes nothing to
the enriched store, processes every remaining record, and no later
record with the same key triggers another external call. -/
theorem c4_live_failure_recovered (cfg : Cfg) (db : DB) (row : Row) (rest : List Row)
    (e : String) (hm : cfg.mockCache = none) (hk : hasKey cfg.apiKey = true)
    (hmiss : getA db.cache (makeKey row.title row.year) = none)
    (herr : cfg.net row.title row.year = Except.error e) :
    (stepRow cfg db row).2 =
      [Event.call row.title row.year, Event.logged (failMsg row.title row.year e),
        Event.saveCache, Event.sleep] ∧
    getA (stepRow cfg db row).1.cache (makeKey row.title row.year) = some none ∧
    (stepRow cfg db row).1.store = db.store ∧
    (runRows cfg db (row :: rest)).2.length = rest.length + 1 ∧
    (∀ r ev, (r, ev) ∈ (runRows cfg (stepRow cfg db row).1 rest).2 →
      makeKey r.title r.year = makeKey row.title row.year →
      ∀ t y, Event.call t y ∉ ev) := by
  have hstep := stepRow_err cfg db row e hmiss hm hk herr
  refine ⟨?_, ?_, ?_, ?_, ?_⟩
  · rw [hstep, missTail_ev]
    simp [writeFor, evOfWrite]
  · rw [hstep, missTail_cache]
    exact getA_setA_self _ _ _
  · rw [hstep, missTail_store]
    rfl
  · exact runRows_length cfg (row :: rest) db
  · intro r ev hmem hkey
    have hsome : (getA (stepRow cfg db row).1.cache (makeKey r.title r.year)).isSome = true := by
      rw [hkey, hstep, missTail_cache, getA_setA_self]
      rfl
    exact (runRows_trace_hit cfg rest (stepRow cfg db row).1 r ev hmem hsome).1

theorem c4_live_failure_recovered_witness :
    cfgLiveErr.mockCache = none ∧
    hasKey cfgLiveErr.apiKey = true ∧
    getA dbEmpty.cache (makeKey exRow.title exRow.year) = none ∧
    cfgLiveErr.net exRow.title exRow.year = Except.error "connection refused" ∧
    ((stepRow cfgLiveErr dbEmpty exRow).2 =
      [Event.call exRow.title exRow.year,
        Event.logged (failMsg exRow.title exRow.year "connection refused"),
        Event.saveCache, Event.sleep] ∧
    getA (stepRow cfgLiveErr dbEmpty exRow).1.cache (makeKey exRow.title exRow.year) =
      some none ∧
    (stepRow cfgLiveErr dbEmpty exRow).1.store = dbEmpty.store ∧
    (runRows cfgLiveErr dbEmpty (exRow :: [exRow2])).2.length = [exRow2].length + 1 ∧
    (∀ r ev, (r, ev) ∈ (runRows cfgLiveErr (stepRow cfgLiveErr dbEmpty exRow).1 [exRow2]).2 →
      makeKey r.title r.year = makeKey exRow.title exRow.year →
      ∀ t y, Event.call t y ∉ ev)) :=
  ⟨rfl, by decide, by decide, rfl,
    c4_live_failure_recovered cfgLiveErr dbEmpty exRow [exRow2] "connection refused"
      rfl (by decide) (by decide) rfl⟩

/-- C5: the cache key is a pure deterministic function of (title, year)
with an absent year spelled out as part of the key (the distinct keys
the specification names are computed), and in any full run the external
lookup is invoked at most once for any fixed (title, year) pair, so two
records sharing (title, year) never cause two external calls. -/
theorem c5_key_deterministic_one_call (cfg : Cfg) (file : Cache) (store : Store)
    (rows : List Row) (t : String) (y : Option Int) :
    (∀ r r' : Row, r.title = r'.title → r.year = r'.year →
      makeKey r.title r.year = makeKey r'.title r'.year) ∧
    makeKey "Title" none = "Title|None" ∧
    makeKey "Title" (some 2001) = "Title|2001" ∧
    makeKey "Title" none ≠ makeKey "Title" (some 2001) ∧
    (runEvents (enrich_movies cfg file store rows)).count (Event.call t y) ≤ 1 := by
  refine ⟨?_, by decide, by decide, by decide, ?_⟩
  · intro r r' h1 h2
    rw [h1, h2]
  · unfold runEvents
    rw [List.count_append]
    have h0 : (([Event.saveCache,
        Event.logged ("Enrichment done. Processed:" ++
          toString (enrich_movies cfg file store rows).db.processed ++
          " cache_hits:" ++ toString (enrich_movies cfg file store rows).db.hits ++
          " cache_misses:" ++ toString (enrich_movies cfg file store rows).db.misses)]).count
        (Event.call t y)) = 0 := by
      simp
    rw [h0, Nat.add_zero]
    exact (runRows_call_count cfg t y rows
      { cache := file, store := store, processed := 0, hits := 0, misses := 0 }).2

/-- C6 counterexample: a resolved, found payload (non-empty, no
`Response` flag) whose rating string `abc` fails numeric parsing is
nevertheless persisted — the iteration emits the enriched upsert and the
store holds the row afterwards (with the rating stored as absent) —
refuting the claim that persistence is skipped on rating parse
failure. -/
theorem c6_counterexample :
    parseImdbRating exPayloadBadRating = none ∧
    (stepRow cfgMockBad dbEmpty exRow).2 =
      [Event.saveCache, Event.sleep, Event.upsert 1 (normalizeRow exRow exPayloadBadRating)] ∧
    getA (stepRow cfgMockBad dbEmpty exRow).1.store 1 =
      some (normalizeRow exRow exPayloadBadRating) ∧
    (normalizeRow exRow exPayloadBadRating).imdb_rating = none := by
  exact ⟨rfl, rfl, rfl, rfl⟩

/-- C6 (amended): for a record whose resolved payload is present and
not flagged not-found, a rating string that fails numeric parsing
normalizes the rating to absent, and the enriched row is still written
(persistence is skipped only for absent or falsy payloads and for
payloads whose `Response` is the string `False`, never for rating parse
failures). -/
theorem c6_parse_failure_still_persists (cfg : Cfg) (db : DB) (row : Row) (p : Payload)
    (hhit : getA db.cache (makeKey row.title row.year) = some (some p))
    (hne : p.isEmpty = false) (hfound : respNotFalse p = true)
    (hparse : parseImdbRating p = none) :
    Event.upsert row.movieId (normalizeRow row p) ∈ (stepRow cfg db row).2 ∧
    (normalizeRow row p).imdb_rating = none := by
  constructor
  · have hw : writeFor row (some p) = some (row.movieId, normalizeRow row p) := by
      simp [writeFor, hne, hfound]
    rw [stepRow_hit cfg db row (some p) hhit, finishRow_ev, hw]
    simp [evOfWrite]
  · exact hparse

theorem c6_parse_failure_still_persists_witness :
    getA dbHitBad.cache (makeKey exRow.title exRow.year) = some (some exPayloadBadRating) ∧
    exPayloadBadRating.isEmpty = false ∧
    respNotFalse exPayloadBadRating = true ∧
    parseImdbRating exPayloadBadRating = none ∧
    (Event.upsert exRow.movieId (normalizeRow exRow exPayloadBadRating) ∈
        (stepRow cfgNoKey dbHitBad exRow).2 ∧
      (normalizeRow exRow exPayloadBadRating).imdb_rating = none) :=
  ⟨by decide, rfl, rfl, rfl,
    c6_parse_failure_still_persists cfgNoKey dbHitBad exRow exPayloadBadRating
      (by decide) rfl rfl rfl⟩

/-- C7: in live mode (no mock mapping) with a falsy credential, a
cache-missing record is skipped entirely: the whole run state (cache,
store, counters) is returned unchanged, the only event is the skip log
line (no save, no delay, no call, no upsert), and the loop goes on to
process the remaining records from the same state. -/
theorem c7_no_key_skips_entirely (cfg : Cfg) (db : DB) (row : Row) (rest : List Row)
    (hm : cfg.mockCache = none) (hk : hasKey cfg.apiKey = false)
    (hmiss : getA db.cache (makeKey row.title row.year) = none) :
    stepRow cfg db row =
      (db, [Event.logged (skipMsg (makeKey row.title row.year))]) ∧
    runRows cfg db (row :: rest) =
      ((runRows cfg db rest).1,
        (row, [Event.logged (skipMsg (makeKey row.title row.year))]) ::
          (runRows cfg db rest).2) := by
  have hstep := stepRow_nokey cfg db row hmiss hm hk
  refine ⟨hstep, ?_⟩
  rw [runRows_cons, hstep]

theorem c7_no_key_skips_entirely_witness :
    cfgNoKey.mockCache = none ∧
    hasKey cfgNoKey.apiKey = false ∧
    getA dbEmpty.cache (makeKey exRow.title exRow.year) = none ∧
    (stepRow cfgNoKey dbEmpty exRow =
      (dbEmpty, [Event.logged (skipMsg (makeKey exRow.title exRow.year))]) ∧
    runRows cfgNoKey dbEmpty (exRow :: [exRow2]) =
      ((runRows cfgNoKey dbEmpty [exRow2]).1,
        (exRow, [Event.logged (skipMsg (makeKey exRow.title exRow.year))]) ::
          (runRows cfgNoKey dbEmpty [exRow2]).2)) :=
  ⟨rfl, rfl, rfl,
    c7_no_key_skips_entirely cfgNoKey dbEmpty exRow [exRow2] rfl rfl rfl⟩

/-- C8 counterexample: the key `Title` is outside the five extracted
fields, the payload carries it, yet it does not appear in the persisted
`other` blob (the code also excludes `Title`, `Year` and `Genre`),
refuting the claim that every payload key outside the extracted set
appears verbatim in extraFields. -/
theorem c8_counterexample :
    "Title" ∉ specExtractedFields ∧
    ("Title", "X") ∈ exPayloadExtra ∧
    ("Title", "X") ∉ (normalizeRow exRow exPayloadExtra).other_fields ∧
    ("Custom", "Z") ∈ (normalizeRow exRow exPayloadExtra).other_fields := by
  refine ⟨by decide, by decide, ?_, ?_⟩
  · have hof : (normalizeRow exRow exPayloadExtra).other_fields = [("Custom", "Z")] := rfl
    rw [hof]
    decide
  · have hof : (normalizeRow exRow exPayloadExtra).other_fields = [("Custom", "Z")] := rfl
    rw [hof]
    exact List.mem_cons_self _ _

/-- C8 (amended): the persisted `other` blob holds exactly the payload
fields whose key is outside the eight-key tuple of line 175 — the five
extracted fields plus the copied-through `Title`, `Year` and `Genre` —
and every key outside that eight-key set appears verbatim; the five
extracted fields are a proper subset of the excluded tuple. -/
theorem c8_extra_fields_exact (row : Row) (p : Payload) (k v : String) :
    ((k, v) ∈ (normalizeRow row p).other_fields ↔ ((k, v) ∈ p ∧ k ∉ excludedKeys)) ∧
    (∀ s ∈ specExtractedFields, s ∈ excludedKeys) := by
  constructor
  · show (k, v) ∈ p.filter (fun kv => !(excludedKeys.contains kv.1)) ↔ _
    rw [List.mem_filter]
    simp
  · decide

/-- C9: a resolved payload that is a non-empty mapping with no
`Response` field at all is treated as found — the guard of line 165
uses the default `True`, so an enriched row is written — and the
not-found branch fires on a non-empty payload only when `Response` is
exactly the string `False`. -/
theorem c9_missing_response_is_found (cfg : Cfg) (db : DB) (row : Row) (p : Payload)
    (hhit : getA db.cache (makeKey row.title row.year) = some (some p))
    (hne : p.isEmpty = false) (hnr : getA p "Response" = none) :
    writeFor row (some p) = some (row.movieId, normalizeRow row p) ∧
    (stepRow cfg db row).1.store = setA db.store row.movieId (normalizeRow row p) ∧
    Event.upsert row.movieId (normalizeRow row p) ∈ (stepRow cfg db row).2 ∧
    (∀ q : Payload, q.isEmpty = false → writeFor row (some q) = none →
      getA q "Response" = some "False") := by
  have hresp : respNotFalse p = true := by
    unfold respNotFalse
    rw [hnr]
    rfl
  have hw : writeFor row (some p) = some (row.movieId, normalizeRow row p) := by
    simp [writeFor, hne, hresp]
  refine ⟨hw, ?_, ?_, ?_⟩
  · rw [stepRow_hit cfg db row (some p) hhit, finishRow_store, hw]
    rfl
  · rw [stepRow_hit cfg db row (some p) hhit, finishRow_ev, hw]
    simp [evOfWrite]
  · intro q hq hwq
    have hrn : respNotFalse q = false := by
      by_contra hco
      have hrt : respNotFalse q = true := by
        cases hx : respNotFalse q
        · exact absurd hx hco
        · rfl
      simp [writeFor, hq, hrt] at hwq
    unfold respNotFalse at hrn
    rcases hr : getA q "Response" with _ | s
    · rw [hr] at hrn
      simp at hrn
    · rw [hr] at hrn
      simp at hrn
      rw [hrn]

theorem c9_missing_response_is_found_witness :
    getA dbHitNoResp.cache (makeKey exRow.title exRow.year) = some (some exPayloadNoResp) ∧
    exPayloadNoResp.isEmpty = false ∧
    getA exPayloadNoResp "Response" = none ∧
    (writeFor exRow (some exPayloadNoResp) =
        some (exRow.movieId, normalizeRow exRow exPayloadNoResp) ∧
      (stepRow cfgNoKey dbHitNoResp exRow).1.store =
        setA dbHitNoResp.store exRow.movieId (normalizeRow exRow exPayloadNoResp) ∧
      Event.upsert exRow.movieId (normalizeRow exRow exPayloadNoResp) ∈
        (stepRow cfgNoKey dbHitNoResp exRow).2 ∧
      (∀ q : Payload, q.isEmpty = false → writeFor exRow (some q) = none →
        getA q "Response" = some "False")) :=
  ⟨by decide, rfl, rfl,
    c9_missing_response_is_found cfgNoKey dbHitNoResp exRow exPayloadNoResp
      (by decide) rfl rfl⟩

/-- C10: the enrichment loop never deletes or blanks an enriched row:
an id outside the scanned base rows keeps its exact previous value, any
id present before the run is still present after it, and each loop
iteration either leaves the store unchanged (skipped record: absent or
falsy payload, not-found flag, or missing credential) or upserts the
normalized row under the current record id. -/
theorem c10_never_deletes (cfg : Cfg) (file : Cache) (store : Store) (rows : List Row) :
    (∀ i : Int, i ∉ rows.map Row.movieId →
      getA (enrich_movies cfg file store rows).db.store i = getA store i) ∧
    (∀ (i : Int) (er : EnrichedRow), getA store i = some er →
      ∃ er', getA (enrich_movies cfg file store rows).db.store i = some er') ∧
    (∀ (db : DB) (row : Row),
      (stepRow cfg db row).1.store = db.store ∨
      ∃ p, (stepRow cfg db row).1.store = setA db.store row.movieId (normalizeRow row p)) := by
  refine ⟨?_, ?_, ?_⟩
  · intro i hni
    have hnone : lastW (upsertsOfTrace (runRows cfg
        { cache := file, store := store, processed := 0, hits := 0, misses := 0 } rows).2)
        i = none := by
      apply lastW_eq_none
      intro jv hjv hji
      apply hni
      rw [← hji]
      exact runRows_upserts_mem cfg rows _ jv.1 jv.2 hjv
    show getA (runRows cfg
      { cache := file, store := store, processed := 0, hits := 0, misses := 0 } rows).1.store i =
      getA store i
    rw [runRows_store cfg rows
      { cache := file, store := store, processed := 0, hits := 0, misses := 0 },
      getA_applyUpserts, hnone]
    rfl
  · intro i er hstore
    show ∃ er', getA (runRows cfg
      { cache := file, store := store, processed := 0, hits := 0, misses := 0 } rows).1.store i =
      some er'
    rw [runRows_store cfg rows
      { cache := file, store := store, processed := 0, hits := 0, misses := 0 },
      getA_applyUpserts]
    rcases hl : lastW (upsertsOfTrace (runRows cfg
        { cache := file, store := store, processed := 0, hits := 0, misses := 0 } rows).2) i
      with _ | v
    · exact ⟨er, hstore⟩
    · exact ⟨v, rfl⟩
  · intro db row
    rcases stepRow_upserts cfg db row with h | ⟨p, h⟩
    · left
      rw [stepRow_store, h]
      rfl
    · right
      exact ⟨p, by rw [stepRow_store, h]; rfl⟩
